import Mathlib

/-!
Verification of `async-config` (patrick-steele-idem/async-config).

The repository ships two implementations of the same load pipeline:
`lib/async-config.js` (callback style, the published/documented API) and
`src/async-config.js` (promise/async-await rewrite).  Both are embedded
below; definitions shared verbatim by the two files are embedded once.

JavaScript values reachable from this library (JSON data plus `undefined`
as the result of a missing property lookup) are embedded as `JsValue`.
Objects are association lists in property-insertion order, matching the
enumeration order of `Object.getOwnPropertyNames` for string keys.
Fallible/asynchronous code is embedded as `Except String`; the eventual
result of an async callback/promise is its value.
-/

set_option autoImplicit false

namespace AsyncConfig

/-- JavaScript values manipulated by the library: JSON data plus
`undefined` (the value of a missing property access).  Numbers are
modelled as integers; no fractional literals occur in the claims. -/
inductive JsValue where
  | null
  | undefined
  | bool (b : Bool)
  | num (n : Int)
  | str (s : String)
  | arr (elems : List JsValue)
  | obj (fields : List (String × JsValue))

/-- JavaScript truthiness for the values of our model (`NaN` does not
arise from integer JSON data). -/
def truthy : JsValue → Bool
  | .null => false
  | .undefined => false
  | .bool b => b
  | .num n => n != 0
  | .str s => s != ""
  | .arr _ => true
  | .obj _ => true

/-- First-match association-list lookup (JavaScript own-property lookup:
keys of a JS object are unique, so first match is the property). -/
def lookupField {α : Type} : List (String × α) → String → Option α
  | [], _ => none
  | (k, v) :: rest, key => if k = key then some v else lookupField rest key

/-- Property read `o[key]` on an object: `undefined` when absent. -/
def getFieldD (fields : List (String × JsValue)) (key : String) : JsValue :=
  (lookupField fields key).getD .undefined

/-- Property write `o[key] = v` / `Object.defineProperty`: an existing
key keeps its position, a new key is appended (JS insertion order). -/
def setField {α : Type} : List (String × α) → String → α → List (String × α)
  | [], key, v => [(key, v)]
  | (k, w) :: rest, key, v =>
    if k = key then (key, v) :: rest else (k, w) :: setField rest key v

/-- Guard of `merge` in both implementations:
`src != null && !Array.isArray(src) && typeof src === 'object'`
(and the same for `dest`).  In the model this holds exactly for the
`obj` constructor: `null`/`undefined` fail the loose `!= null` test,
arrays fail `!Array.isArray`, and scalars have a different `typeof`. -/
def mergeable : JsValue → Bool
  | .obj _ => true
  | _ => false

mutual

/-- Embedding of `merge(src, dest)` (lib/async-config.js lines 21-40 and
src/async-config.js lines 23-41, identical): when both sides are
non-null non-array objects, every own property `p` of `src` is written
into `dest` as `merge(src[p], dest[p])` (in `src`'s property order,
reading the current state of `dest`) and the mutated `dest` is
returned; in every other case `src` is returned and `dest` untouched. -/
def merge : JsValue → JsValue → JsValue
  | .obj srcFields, .obj destFields => .obj (mergeFields srcFields destFields)
  | src, _ => src

/-- The `Object.getOwnPropertyNames(src).forEach` loop of `merge`,
threading the mutated `dest` field list. -/
def mergeFields : List (String × JsValue) → List (String × JsValue) →
    List (String × JsValue)
  | [], dest => dest
  | (p, v) :: rest, dest =>
    mergeFields rest (setField dest p (merge v (getFieldD dest p)))

end

theorem lookupField_setField_self {α : Type} (fs : List (String × α))
    (k : String) (v : α) : lookupField (setField fs k v) k = some v := by
  induction fs with
  | nil => simp [setField, lookupField]
  | cons hd tl ih =>
    obtain ⟨k', v'⟩ := hd
    by_cases h : k' = k
    · simp [setField, h, lookupField]
    · simp [setField, h, lookupField, ih]

theorem lookupField_setField_ne {α : Type} (fs : List (String × α))
    (k k' : String) (v : α) (h : k ≠ k') :
    lookupField (setField fs k v) k' = lookupField fs k' := by
  induction fs with
  | nil => simp [setField, lookupField, h]
  | cons hd tl ih =>
    obtain ⟨k0, v0⟩ := hd
    by_cases h0 : k0 = k
    · subst h0
      simp [setField, lookupField, h]
    · simp only [setField, if_neg h0, lookupField]
      by_cases h1 : k0 = k'
      · simp [h1]
      · simp [h1, ih]

/-- Keys present in an association list. -/
def fieldKeys {α : Type} (fs : List (String × α)) : List String :=
  fs.map Prod.fst

theorem fieldKeys_cons {α : Type} (k : String) (v : α)
    (fs : List (String × α)) : fieldKeys ((k, v) :: fs) = k :: fieldKeys fs :=
  rfl

theorem lookupField_eq_none_of_not_mem {α : Type} (fs : List (String × α))
    (k : String) (h : k ∉ fieldKeys fs) : lookupField fs k = none := by
  induction fs with
  | nil => simp [lookupField]
  | cons hd tl ih =>
    obtain ⟨k0, v0⟩ := hd
    rw [fieldKeys_cons, List.mem_cons] at h
    push_neg at h
    simp only [lookupField, if_neg (fun hh : k0 = k => h.1 hh.symm)]
    exact ih h.2

/-- Main characterization of the merge loop: assuming the source object
has distinct keys (always true of a JavaScript object), the value of
each key after merging is `merge src[k] dest[k]` for keys of `src`, and
the untouched `dest` value for keys absent from `src`. -/
theorem lookupField_mergeFields (sf : List (String × JsValue))
    (h : (fieldKeys sf).Nodup) (df : List (String × JsValue)) (k : String) :
    lookupField (mergeFields sf df) k =
      match lookupField sf k with
      | some v => some (merge v (getFieldD df k))
      | none => lookupField df k := by
  induction sf generalizing df with
  | nil => simp [mergeFields, lookupField]
  | cons hd tl ih =>
    obtain ⟨p, v⟩ := hd
    rw [fieldKeys_cons, List.nodup_cons] at h
    obtain ⟨hp, htl⟩ := h
    by_cases hk : p = k
    · subst hk
      have hnone : lookupField tl p = none :=
        lookupField_eq_none_of_not_mem tl p hp
      simp only [mergeFields, lookupField, if_pos rfl]
      rw [ih htl, hnone]
      simp [lookupField_setField_self]
    · simp only [mergeFields, lookupField, if_neg hk]
      rw [ih htl]
      cases hcase : lookupField tl k with
      | none => simp [lookupField_setField_ne df p k _ hk]
      | some w => simp [getFieldD, lookupField_setField_ne df p k _ hk]

/-- Merge on anything but a pair of plain objects returns `src` and
leaves `dest` untouched. -/
theorem merge_not_mergeable (src dest : JsValue)
    (h : mergeable src = false ∨ mergeable dest = false) :
    merge src dest = src := by
  cases src <;> cases dest <;> simp_all [merge, mergeable]

/-- The `mergeable` guard is exactly the `obj` constructor. -/
theorem mergeable_iff (v : JsValue) :
    mergeable v = true ↔ ∃ fs, v = .obj fs := by
  cases v <;> simp [mergeable]

/-- Outcome of the external `fs.readFile` capability for one path. -/
inductive FileReadResult where
  | enoent
  | ioError (e : String)
  | content (text : String)

/-- External collaborators of the loader (spec section 6): the file
system and the JSON parser (`JSON.parse` after `jsonminify`). -/
structure Externals where
  fs : String → FileReadResult
  parseJson : String → Except String JsValue

/-- Embedding of `parseJSON(json, errorMessage)` (identical in both
implementations): delegate to the external parser and caption a parse
failure with the given message. -/
def parseJSON (X : Externals) (json errorMessage : String) :
    Except String JsValue :=
  match X.parseJson json with
  | .ok v => .ok v
  | .error e => .error (errorMessage ++ ". Error: " ++ e)

/-- Contribution-level embedding of `loadFileSource(path, callback)`
from lib/async-config.js lines 171-183: `ENOENT` yields an empty
callback (the source contributes `undefined`), any other read error is
passed through, and a successful read is parsed with an error message
naming the path.  CAUTION on the parse-failure branch: in the lib
source, line 181 evaluates `parseJSON` inside the `fs.readFile`
completion callback, so a parse failure is thrown there BEFORE
`callback` is invoked -- an uncaught exception that never reaches the
load's completion channel.  This definition collapses that thrown path
into the same `Except` as the callback-delivered errors; it is
therefore only used by claims about the merged result, never by claims
about error delivery.  The channel-accurate embedding is
`loadFileSourceLib` below. -/
def loadFileSource (X : Externals) (path : String) : Except String JsValue :=
  match X.fs path with
  | .enoent => .ok .undefined
  | .ioError e => .error e
  | .content text =>
    parseJSON X text
      ("Failed to load config at path \"" ++ path ++ "\". Unable to parse JSON")

/-- Embedding of a configuration source, one constructor per branch of
the dispatch in `loadSources` (lib lines 207-219, src lines 196-210):
`null`/`undefined` entries, string file paths, nested arrays, async
provider functions (embedded as their eventual callback result), plain
objects, and any other value (which is a fatal error; `shown` is its
string rendering used in the error message). -/
inductive Source where
  | nullish
  | file (path : String)
  | nested (xs : List Source)
  | provider (result : Except String JsValue)
  | inline (v : JsValue)
  | invalid (shown : String)

/-- State of the `mergedConfig` accumulator after the statement
`merge(sourceConfig, mergedConfig)` in `loadSources`, whose return
value is discarded: the accumulator object is mutated (to the merge
result) exactly when both sides are plain objects, and is untouched
otherwise. -/
def mergeIntoAcc (src acc : JsValue) : JsValue :=
  match src, acc with
  | .obj _, .obj _ => merge src acc
  | _, _ => acc

mutual

/-- Resolution of one source to its contribution, lib/async-config.js
lines 207-219 (the src version differs only in the file branch, see
`loadOneSrc`). -/
def loadOne (X : Externals) : Source → Except String JsValue
  | .nullish => .ok .undefined
  | .file p => loadFileSource X p
  | .nested xs => loadSourcesAux X xs (.obj [])
  | .provider r => r
  | .inline v => .ok v
  | .invalid s => .error ("Invalid configuration source: " ++ s)

/-- The sequential task loop of `loadSources` (lib lines 188-230):
sources are resolved strictly in list order; a truthy contribution is
merged into the shared accumulator, an error aborts the whole load. -/
def loadSourcesAux (X : Externals) :
    List Source → JsValue → Except String JsValue
  | [], acc => .ok acc
  | s :: rest, acc =>
    match loadOne X s with
    | .error e => .error e
    | .ok c => loadSourcesAux X rest (if truthy c then mergeIntoAcc c acc else acc)

end

/-- Embedding of `loadSources(sources, callback)`: the accumulator
starts as a fresh empty object. -/
def loadSources (X : Externals) (sources : List Source) :
    Except String JsValue :=
  loadSourcesAux X sources (.obj [])

/-- Protocol handler as seen by the resolver: the eventual result of a
possibly-asynchronous handler applied to the payload. -/
def Handler : Type := String → Except String JsValue

/-- Scan for the first colon, accumulating the characters before it;
the remainder of the string is the payload. -/
def splitColonAux : List Char → String → Option (String × String)
  | [], _ => none
  | c :: rest, before =>
    if c = ':' then some (before, String.mk rest)
    else splitColonAux rest (before.push c)

/-- Modelled from the spec: splitting of a tagged string value into a
protocol name and a payload at the first colon (part of the external
`shortstop` dependency, whose source is not in the repository).
Strings with no colon carry no protocol. -/
def splitTagged (s : String) : Option (String × String) :=
  splitColonAux s.data ""

mutual

/-- Modelled from the spec: the `shortstop` resolver walk (external
dependency, source not in the repository), per spec section 4.4:
produce a new tree where every string value of the form
`protocol:payload` whose protocol matches a registered handler is
replaced by that handler's result for the payload; strings matching no
registered handler are left verbatim; objects and arrays are recursed
into; other scalars are leaves; a handler failure aborts resolution. -/
def resolveTree (hs : List (String × Handler)) : JsValue → Except String JsValue
  | .str s =>
    (match splitTagged s with
     | some pp =>
       (match lookupField hs pp.1 with
        | some h => h pp.2
        | none => .ok (.str s))
     | none => .ok (.str s))
  | .obj fields =>
    (match resolveFields hs fields with
     | .ok fs => .ok (.obj fs)
     | .error e => .error e)
  | .arr elems =>
    (match resolveElems hs elems with
     | .ok xs => .ok (.arr xs)
     | .error e => .error e)
  | v => .ok v

/-- Resolver walk over the fields of an object. -/
def resolveFields (hs : List (String × Handler)) :
    List (String × JsValue) → Except String (List (String × JsValue))
  | [] => .ok []
  | (k, v) :: rest =>
    (match resolveTree hs v with
     | .error e => .error e
     | .ok v2 =>
       (match resolveFields hs rest with
        | .error e => .error e
        | .ok r2 => .ok ((k, v2) :: r2)))

/-- Resolver walk over the elements of an array. -/
def resolveElems (hs : List (String × Handler)) :
    List JsValue → Except String (List JsValue)
  | [] => .ok []
  | v :: rest =>
    (match resolveTree hs v with
     | .error e => .error e
     | .ok v2 =>
       (match resolveElems hs rest with
        | .error e => .error e
        | .ok r2 => .ok (v2 :: r2)))

end

/-- Embedding of `handleProtocols(config, path, options, callback)`
(lib lines 239-259, src lines 225-258): when at least one handler is
registered the resolver runs over the config, otherwise the config is
returned unchanged. -/
def handleProtocols (hs : List (String × Handler)) (config : JsValue) :
    Except String JsValue :=
  if hs.isEmpty then .ok config else resolveTree hs config

/-- Core of `load` in lib/async-config.js (lines 371-400): load and
merge all sources, then run protocol resolution over the entire merged
config (finalize and helper attachment follow and are embedded
separately). -/
def loadCoreLib (X : Externals) (hs : List (String × Handler))
    (sources : List Source) : Except String JsValue :=
  match loadSources X sources with
  | .error e => .error e
  | .ok config => handleProtocols hs config

/-- Embedding of the src/async-config.js `loadFileSource` (lines
172-181): unlike the lib version, it runs `handleProtocols` over the
parsed contents of each individual file before returning them. -/
def loadFileSourceSrc (X : Externals) (hs : List (String × Handler))
    (path : String) : Except String JsValue :=
  match X.fs path with
  | .enoent => .ok .undefined
  | .ioError e => .error e
  | .content text =>
    match parseJSON X text
        ("Failed to load config at path \"" ++ path ++ "\". Unable to parse JSON") with
    | .error e => .error e
    | .ok config => handleProtocols hs config

mutual

/-- Resolution of one source in the src version (lines 196-210): only
the file branch differs from the lib version. -/
def loadOneSrc (X : Externals) (hs : List (String × Handler)) :
    Source → Except String JsValue
  | .nullish => .ok .undefined
  | .file p => loadFileSourceSrc X hs p
  | .nested xs => loadSourcesAuxSrc X hs xs (.obj [])
  | .provider r => r
  | .inline v => .ok v
  | .invalid s => .error ("Invalid configuration source: " ++ s)

/-- The sequential loop of the src version's `loadSources` (lines
186-216). -/
def loadSourcesAuxSrc (X : Externals) (hs : List (String × Handler)) :
    List Source → JsValue → Except String JsValue
  | [], acc => .ok acc
  | s :: rest, acc =>
    match loadOneSrc X hs s with
    | .error e => .error e
    | .ok c =>
      loadSourcesAuxSrc X hs rest (if truthy c then mergeIntoAcc c acc else acc)

end

/-- Core of `load` in src/async-config.js (lines 362-374): load and
merge all sources; no protocol resolution runs over the merged config
(resolution happened only inside `loadFileSourceSrc`). -/
def loadCoreSrc (X : Externals) (hs : List (String × Handler))
    (sources : List Source) : Except String JsValue :=
  loadSourcesAuxSrc X hs sources (.obj [])

/-- Delivery channel of one lib-version file-source outcome:
`delivered` covers everything handed to the node-style callback
(`callback()`, `callback(err)`, `callback(null, config)`), which flows
on into the load's `DataHolder` completion channel; `uncaughtThrow` is
an exception thrown inside the `fs.readFile` completion callback
before `callback` is invoked -- nothing up that stack catches it, so
the `DataHolder` never settles and the error never reaches the
caller's completion channel. -/
inductive CallbackOutcome where
  | delivered (result : Except String JsValue)
  | uncaughtThrow (e : String)

/-- Channel-accurate embedding of `loadFileSource(path, callback)`
from lib/async-config.js lines 171-183: `ENOENT` is delivered as an
empty contribution, any other read error is delivered via
`callback(err)`, a parsed read is delivered via
`callback(null, config)`, and a parse failure at line 181 is a throw
inside the `fs.readFile` callback -- an uncaught exception (its
message names the offending path) that is never delivered. -/
def loadFileSourceLib (X : Externals) (path : String) : CallbackOutcome :=
  match X.fs path with
  | .enoent => .delivered (.ok .undefined)
  | .ioError e => .delivered (.error e)
  | .content text =>
    match parseJSON X text
        ("Failed to load config at path \"" ++ path ++ "\". Unable to parse JSON") with
    | .ok v => .delivered (.ok v)
    | .error e => .uncaughtThrow e

/-- Embedding of `getEnvironment(options)` (lib lines 90-111): the
explicit option wins when truthy, else the `NODE_ENV` reading; `prod`
and `dev` are normalized; a falsy result defaults to `development`. -/
def getEnvironment (optEnv nodeEnv : Option String) : String :=
  let env : Option String :=
    match optEnv with
    | some s => if s = "" then nodeEnv else some s
    | none => nodeEnv
  match env with
  | some s =>
    if s = "" then "development"
    else if s = "prod" then "production"
    else if s = "dev" then "development"
    else s
  | none => "development"

/-- The `getEnvNodeConfig()` / `getCommandLineNodeConfig()` snapshots
(process-wide memoized values) pushed as sources: the parsed override
object when the variable/flag is present, JavaScript `null` (a skipped
source entry) when absent. -/
def snapshotSource : Option JsValue → Source
  | some v => .inline v
  | none => .nullish

/-- Embedding of `buildSources(path, options)` (lib lines 120-169).
`ext` is the result of the external `nodePath.extname(basename(path))`
capability.  Note the order in the source: `pathNoExt` is computed as
`path.slice(0, 0 - ext.length)` BEFORE `ext` is defaulted to `.json`,
so when `ext` is empty the slice end index is `0` and `pathNoExt` is
the empty string.  The `sources` hook replaces the list when it
returns a non-null value. -/
def buildSourcesCore (path ext : String) (environment : String)
    (defaults overrides : List Source)
    (hook : Option (List Source → Option (List Source)))
    (ex : List (String × Bool)) (envCfg cmdCfg : Option JsValue) :
    List Source :=
  let pathNoExt := if ext = "" then "" else path.take (path.length - ext.length)
  let extActual := if ext = "" then ".json" else ext
  let sources :=
    defaults
    ++ [Source.file (pathNoExt ++ extActual)]
    ++ (if lookupField ex "env-file" = some true then []
        else [Source.file (pathNoExt ++ "-" ++ environment ++ extActual)])
    ++ (if lookupField ex "local-file" = some true then []
        else [Source.file (pathNoExt ++ "-local" ++ extActual)])
    ++ (if lookupField ex "env" = some true then [] else [snapshotSource envCfg])
    ++ (if lookupField ex "command-line" = some true then []
        else [snapshotSource cmdCfg])
    ++ overrides
  match hook with
  | none => sources
  | some f =>
    match f sources with
    | some newSources => newSources
    | none => sources

/-- The value held by the `excludes` option: either the array form or
the map form accepted by `load`. -/
inductive ExcludesVal where
  | arrayForm (names : List String)
  | mapForm (m : List (String × Bool))

/-- Embedding of the caller-visible `options` object.  `none` is an
absent (undefined) property.  `sources` is the list-rewriting hook;
`provider` results and `finalize` stand for the eventual outcomes of
the corresponding asynchronous callbacks. -/
structure LoadOptions where
  environment : Option String := none
  defaults : Option (List Source) := none
  overrides : Option (List Source) := none
  sources : Option (List Source → Option (List Source)) := none
  excludes : Option ExcludesVal := none
  protocols : Option (List (String × Handler)) := none
  finalize : Option (JsValue → Except String (Option JsValue)) := none
  helpersEnabled : Option Bool := none

/-- Embedding of the excludes normalization in `load` (lib lines
346-363): the local `excludes` starts as `null`; a truthy array-form
option is walked with `excludes[exclude] = true`, which on the first
element is an assignment to `null` and raises a `TypeError`; an empty
array leaves `excludes` as `null`, which is stored back; a map form is
stored as is; an absent option becomes the empty map. -/
def normalizeExcludes : Option ExcludesVal → Except String (Option ExcludesVal)
  | none => .ok (some (.mapForm []))
  | some (.arrayForm []) => .ok none
  | some (.arrayForm (_ :: _)) =>
    .error "TypeError: Cannot set properties of null"
  | some (.mapForm m) => .ok (some (.mapForm m))

/-- Embedding of `extend(dest, src)` / `Object.assign(dest, src)` on
property maps: every own property of `src` is written into `dest`. -/
def extendFields {α : Type} (dest src : List (String × α)) :
    List (String × α) :=
  src.foldl (fun acc kv => setField acc kv.1 kv.2) dest

/-- Embedding of the option-processing prefix of `load` (lib lines
291-363).  Line 299 computes `extend({}, options)` but DISCARDS the
result, so everything below acts on the caller's own options object;
the value returned here is therefore the state of the caller's options
after this phase: `options.protocols` is overwritten with the merged
default-plus-user protocol map (line 344) and `options.excludes` with
the normalized excludes (line 363). -/
def optionsPhase (defaultProtocols : List (String × Handler))
    (opts : LoadOptions) : Except String LoadOptions :=
  let protocols :=
    match opts.protocols with
    | none => defaultProtocols
    | some user => extendFields defaultProtocols user
  match normalizeExcludes opts.excludes with
  | .error e => .error e
  | .ok ex => .ok { opts with protocols := some protocols, excludes := ex }

/-- Reading of a (post-normalization) excludes value as a map, as done
by `extend({}, options.excludes)`: a missing or null value contributes
no properties. -/
def excludesMapOf : Option ExcludesVal → List (String × Bool)
  | some (.mapForm m) => m
  | _ => []

/-- Embedding of the child-options derivation of the `import` protocol
handler (lib lines 311-329): shallow-copy the parent options, drop
`sources`/`defaults`/`overrides`/`finalize`, copy the excludes map and
force `env` and `command-line` to `true`, and disable helpers. -/
def importOptionsOf (opts : LoadOptions) : LoadOptions :=
  { opts with
    sources := none
    defaults := none
    overrides := none
    finalize := none
    excludes := some (.mapForm
      (setField (setField (excludesMapOf opts.excludes) "env" true)
        "command-line" true))
    helpersEnabled := some false }

/-- Embedding of the `import` handler invocation (lib lines 311-330):
given the external path-resolution capability `resolve`, the directory
`dir` of the importing file and the payload `value`, the child `load`
is invoked on `resolve dir value` with the derived child options. -/
def importCall (resolve : String → String → String) (dir : String)
    (opts : LoadOptions) (value : String) : String × LoadOptions :=
  (resolve dir value, importOptionsOf opts)

/-- Embedding of `buildSources` reading its inputs from a
post-normalization options object.  Reading a property of a `null`
excludes value (the leftover of an empty array form) raises a
`TypeError`; an array value is an object whose lookups of the four
exclude names yield `undefined`, so nothing is excluded. -/
def buildSources (path ext : String) (nodeEnv : Option String)
    (opts : LoadOptions) (envCfg cmdCfg : Option JsValue) :
    Except String (List Source) :=
  let environment := getEnvironment opts.environment nodeEnv
  let dfs := opts.defaults.getD []
  let ovs := opts.overrides.getD []
  match opts.excludes with
  | none => .error "TypeError: Cannot read properties of null"
  | some (.arrayForm _) =>
    .ok (buildSourcesCore path ext environment dfs ovs opts.sources []
      envCfg cmdCfg)
  | some (.mapForm ex) =>
    .ok (buildSourcesCore path ext environment dfs ovs opts.sources ex
      envCfg cmdCfg)

/-- Option processing followed by source-list construction, as `load`
performs them (lib lines 291-371). -/
def loadSourceList (defaultProtocols : List (String × Handler))
    (path ext : String) (nodeEnv : Option String) (opts : LoadOptions)
    (envCfg cmdCfg : Option JsValue) : Except String (List Source) :=
  match optionsPhase defaultProtocols opts with
  | .error e => .error e
  | .ok o => buildSources path ext nodeEnv o envCfg cmdCfg

/-- JavaScript property read `cur[propName]` as used by the `get`
helper: reading a property of `null` or `undefined` throws a
`TypeError`; objects use own-property lookup; arrays expose canonical
numeric indices and `length`; strings expose indices and `length`;
other primitives have no own properties (prototype methods are outside
the JSON data model and read as `undefined`). -/
def indexJs : JsValue → String → Except String JsValue
  | .null, _ => .error "TypeError: Cannot read properties of null"
  | .undefined, _ => .error "TypeError: Cannot read properties of undefined"
  | .obj fields, key => .ok (getFieldD fields key)
  | .arr elems, key =>
    if key = "length" then .ok (.num elems.length)
    else
      (match key.toNat? with
       | some i =>
         if toString i = key ∧ i < elems.length
         then .ok (elems.getD i .undefined)
         else .ok .undefined
       | none => .ok .undefined)
  | .str s, key =>
    if key = "length" then .ok (.num s.length)
    else
      (match key.toNat? with
       | some i =>
         if toString i = key ∧ i < s.length
         then .ok (.str ((s.drop i).take 1))
         else .ok .undefined
       | none => .ok .undefined)
  | .bool _, _ => .ok .undefined
  | .num _, _ => .ok .undefined

/-- The `while (curObject && i < len)` walk of the `get` helper (lib
lines 266-279): traversal stops as soon as the current value is falsy
or the parts are exhausted, and returns the current value. -/
def getPathAux : JsValue → List String → Except String JsValue
  | cur, [] => .ok cur
  | cur, p :: rest =>
    if truthy cur then
      match indexJs cur p with
      | .error e => .error e
      | .ok nxt => getPathAux nxt rest
    else .ok cur

/-- Embedding of the JavaScript `path.split('.')` used by the `get`
helper: split into the (possibly empty) runs of characters between
dots; the empty string splits to `[""]`. -/
def splitDotAux : List Char → String → List String
  | [], acc => [acc]
  | c :: rest, acc =>
    if c = '.' then acc :: splitDotAux rest ""
    else splitDotAux rest (acc.push c)

/-- Split a dotted path into its parts. -/
def splitDot (s : String) : List String :=
  splitDotAux s.data ""

/-- Embedding of the attached `get(path)` accessor (lib lines 261-289):
split on `.` and walk. -/
def getPath (config : JsValue) (path : String) : Except String JsValue :=
  getPathAux config (splitDot path)

/-- Embedding of `addHelpers(config, options)` (lib lines 261-289): the
returned pair is (the attached accessor if any, the config object); no
accessor is attached exactly when `options.helpersEnabled === false`. -/
def addHelpers (config : JsValue) (helpersEnabled : Option Bool) :
    (Option (String → Except String JsValue)) × JsValue :=
  if helpersEnabled = some false then (none, config)
  else (some (getPath config), config)

/-- Externals with no readable files and a parser that always fails;
used to instantiate theorems whose statements do not depend on them. -/
def emptyExternals : Externals :=
  ⟨fun _ => .enoent, fun _ => .error "unparsed"⟩

/-- C1: for every ordered source list, `loadSources` resolves the
sources in list order and folds each resolved contribution into the
single shared accumulator with later-wins precedence: the inline list
`[{x:1}, {x:2, y:3}]` merges to `{x:2, y:3}`; in general two inline
object sources fold to `merge(second, merge(first, {}))`, and at every
object leaf a key of the later source overwrites the earlier value
(with objects on both sides composing recursively) while unshadowed
keys survive. -/
theorem c1_loadSources_later_wins :
    (∀ X : Externals,
      loadSources X [.inline (.obj [("x", .num 1)]),
        .inline (.obj [("x", .num 2), ("y", .num 3)])] =
        .ok (.obj [("x", .num 2), ("y", .num 3)])) ∧
    (∀ (X : Externals) (af bf : List (String × JsValue)),
      loadSources X [.inline (.obj af), .inline (.obj bf)] =
        .ok (merge (.obj bf) (merge (.obj af) (.obj [])))) ∧
    (∀ (sf df : List (String × JsValue)) (k : String),
      (fieldKeys sf).Nodup →
      lookupField (mergeFields sf df) k =
        match lookupField sf k with
        | some v => some (merge v (getFieldD df k))
        | none => lookupField df k) := by
  refine ⟨fun X => ?_, fun X af bf => ?_,
    fun sf df k h => lookupField_mergeFields sf h df k⟩
  · simp [loadSources, loadSourcesAux, loadOne, truthy, mergeIntoAcc, merge,
      mergeFields, setField, getFieldD, lookupField]
  · simp [loadSources, loadSourcesAux, loadOne, truthy, mergeIntoAcc, merge]

/-- Witness for C1 at concrete inputs. -/
theorem c1_witness :
    loadSources emptyExternals [.inline (.obj [("x", .num 1)]),
        .inline (.obj [("x", .num 2), ("y", .num 3)])] =
      .ok (.obj [("x", .num 2), ("y", .num 3)]) ∧
    lookupField (mergeFields [("x", JsValue.num 2)] [("x", JsValue.num 1)])
      "x" = some (.num 2) := by
  refine ⟨c1_loadSources_later_wins.1 emptyExternals, ?_⟩
  have h := c1_loadSources_later_wins.2.2 [("x", JsValue.num 2)]
    [("x", JsValue.num 1)] "x" (by simp [fieldKeys])
  rw [h]
  rfl

/-- C2: `merge(src, dest)` on two plain objects merges recursively --
every own property `p` of `src` yields `dest[p] = merge(src[p],
dest[p])`, properties of `dest` not shadowed by `src` survive, and the
(mutated) `dest` object is returned; in every other case (either side
nullish, an array, or a non-object scalar) `merge` returns `src`
unchanged, replacing arrays and scalars wholesale. -/
theorem c2_merge_rule :
    (∀ sf df, merge (.obj sf) (.obj df) = .obj (mergeFields sf df)) ∧
    (∀ (sf df : List (String × JsValue)) (k : String) (v : JsValue),
      (fieldKeys sf).Nodup → lookupField sf k = some v →
      lookupField (mergeFields sf df) k = some (merge v (getFieldD df k))) ∧
    (∀ (sf df : List (String × JsValue)) (k : String),
      (fieldKeys sf).Nodup → lookupField sf k = none →
      lookupField (mergeFields sf df) k = lookupField df k) ∧
    (∀ src dest : JsValue,
      mergeable src = false ∨ mergeable dest = false →
      merge src dest = src) ∧
    (∀ v : JsValue, mergeable v = true ↔ ∃ fs, v = .obj fs) := by
  refine ⟨fun sf df => by simp [merge], fun sf df k v hnd hk => ?_,
    fun sf df k hnd hk => ?_, merge_not_mergeable, mergeable_iff⟩
  · have h := lookupField_mergeFields sf hnd df k
    rw [hk] at h
    exact h
  · have h := lookupField_mergeFields sf hnd df k
    rw [hk] at h
    exact h

/-- Witness for C2 at concrete inputs: the shadowed key takes the
`src` value, the unshadowed key survives, and an array replaces an
object wholesale. -/
theorem c2_witness :
    lookupField (mergeFields [("a", JsValue.num 1)]
      [("a", JsValue.num 2), ("b", JsValue.num 3)]) "a" = some (.num 1) ∧
    lookupField (mergeFields [("a", JsValue.num 1)]
      [("a", JsValue.num 2), ("b", JsValue.num 3)]) "b" = some (.num 3) ∧
    merge (.arr [JsValue.num 7]) (.obj []) = .arr [JsValue.num 7] := by
  refine ⟨?_, ?_, c2_merge_rule.2.2.2.1 _ _ (Or.inl rfl)⟩
  · have h := c2_merge_rule.2.1 [("a", JsValue.num 1)]
      [("a", JsValue.num 2), ("b", JsValue.num 3)] "a" (.num 1)
      (by simp [fieldKeys]) (by simp [lookupField])
    rw [h]
    rfl
  · have h := c2_merge_rule.2.2.1 [("a", JsValue.num 1)]
      [("a", JsValue.num 2), ("b", JsValue.num 3)] "b"
      (by simp [fieldKeys]) (by simp [lookupField])
    rw [h]
    rfl

mutual

/-- A source that contributes nothing: a nullish entry, a file that is
missing, a provider whose callback yields no value, or a nested list
of such sources. -/
def contributesNothingB (X : Externals) : Source → Bool
  | .nullish => true
  | .file p =>
    (match X.fs p with
     | .enoent => true
     | _ => false)
  | .provider r =>
    (match r with
     | .ok .undefined => true
     | _ => false)
  | .nested xs => contributesNothingListB X xs
  | .inline _ => false
  | .invalid _ => false

/-- Pointwise `contributesNothingB` over a source list. -/
def contributesNothingListB (X : Externals) : List Source → Bool
  | [] => true
  | s :: rest => contributesNothingB X s && contributesNothingListB X rest

end

mutual

theorem loadOne_of_nothing (X : Externals) (s : Source)
    (h : contributesNothingB X s = true) :
    loadOne X s = .ok .undefined ∨ loadOne X s = .ok (.obj []) := by
  cases s with
  | nullish => left; simp [loadOne]
  | file p =>
    cases hfs : X.fs p with
    | enoent => left; simp [loadOne, loadFileSource, hfs]
    | ioError e => rw [contributesNothingB, hfs] at h; exact absurd h (by simp)
    | content t => rw [contributesNothingB, hfs] at h; exact absurd h (by simp)
  | provider r =>
    match r with
    | .ok .undefined => left; simp [loadOne]
    | .ok .null =>
      rw [contributesNothingB] at h
      · exact absurd h (by decide)
      · intro hh; injection hh with hv; exact JsValue.noConfusion hv
    | .ok (.bool b) =>
      rw [contributesNothingB] at h
      · exact absurd h (by decide)
      · intro hh; injection hh with hv; exact JsValue.noConfusion hv
    | .ok (.num n) =>
      rw [contributesNothingB] at h
      · exact absurd h (by decide)
      · intro hh; injection hh with hv; exact JsValue.noConfusion hv
    | .ok (.str s) =>
      rw [contributesNothingB] at h
      · exact absurd h (by decide)
      · intro hh; injection hh with hv; exact JsValue.noConfusion hv
    | .ok (.arr xs) =>
      rw [contributesNothingB] at h
      · exact absurd h (by decide)
      · intro hh; injection hh with hv; exact JsValue.noConfusion hv
    | .ok (.obj fs) =>
      rw [contributesNothingB] at h
      · exact absurd h (by decide)
      · intro hh; injection hh with hv; exact JsValue.noConfusion hv
    | .error e =>
      rw [contributesNothingB] at h
      · exact absurd h (by decide)
      · intro hh; exact Except.noConfusion hh
  | nested xs =>
    right
    rw [contributesNothingB] at h
    rw [loadOne]
    exact loadSourcesAux_of_nothing X xs h
  | inline v => rw [contributesNothingB] at h; exact absurd h (by simp)
  | invalid d => rw [contributesNothingB] at h; exact absurd h (by simp)

theorem loadSourcesAux_of_nothing (X : Externals) (ss : List Source)
    (h : contributesNothingListB X ss = true) :
    loadSourcesAux X ss (.obj []) = .ok (.obj []) := by
  cases ss with
  | nil => simp [loadSourcesAux]
  | cons s rest =>
    rw [contributesNothingListB, Bool.and_eq_true] at h
    rcases loadOne_of_nothing X s h.1 with h1 | h1
    · rw [loadSourcesAux, h1]
      simp only [truthy, Bool.false_eq_true, if_false]
      exact loadSourcesAux_of_nothing X rest h.2
    · rw [loadSourcesAux, h1]
      simp only [truthy, if_true, mergeIntoAcc, merge, mergeFields]
      exact loadSourcesAux_of_nothing X rest h.2

end

/-- The accumulator object survives every step of the source loop: a
successful `loadSources` always yields a plain object. -/
theorem loadSourcesAux_obj (X : Externals) (ss : List Source) :
    ∀ fields, (∃ e, loadSourcesAux X ss (.obj fields) = .error e) ∨
      ∃ gs, loadSourcesAux X ss (.obj fields) = .ok (.obj gs) := by
  induction ss with
  | nil => exact fun fields => .inr ⟨fields, by rw [loadSourcesAux]⟩
  | cons s rest ih =>
    intro fields
    cases hone : loadOne X s with
    | error e => exact .inl ⟨e, by rw [loadSourcesAux, hone]⟩
    | ok c =>
      have hobj : ∃ gs, (if truthy c then mergeIntoAcc c (.obj fields)
          else .obj fields) = .obj gs := by
        cases ht : truthy c
        · exact ⟨fields, by simp⟩
        · cases c with
          | obj cf => exact ⟨mergeFields cf fields, by simp [mergeIntoAcc, merge]⟩
          | null => exact ⟨fields, by simp [mergeIntoAcc]⟩
          | undefined => exact ⟨fields, by simp [mergeIntoAcc]⟩
          | bool b => exact ⟨fields, by simp [mergeIntoAcc]⟩
          | num n => exact ⟨fields, by simp [mergeIntoAcc]⟩
          | str s2 => exact ⟨fields, by simp [mergeIntoAcc]⟩
          | arr es => exact ⟨fields, by simp [mergeIntoAcc]⟩
      obtain ⟨gs, hgs⟩ := hobj
      have hred : loadSourcesAux X (s :: rest) (.obj fields) =
          loadSourcesAux X rest (.obj gs) := by
        rw [loadSourcesAux, hone]
        exact congrArg (loadSourcesAux X rest) hgs
      rw [hred]
      exact ih gs

/-- C10: `loadSources` always yields a plain object when it succeeds
(never `null` or `undefined`), and when every entry of the list contributes nothing
(missing files, nullish entries, providers yielding nothing, nested
lists of such) it succeeds with the empty object. -/
theorem c10_loadSources_yields_object :
    (∀ (X : Externals) (sources : List Source),
      (∃ e, loadSources X sources = .error e) ∨
      (∃ fs, loadSources X sources = .ok (.obj fs))) ∧
    (∀ (X : Externals) (sources : List Source),
      contributesNothingListB X sources = true →
      loadSources X sources = .ok (.obj [])) :=
  ⟨fun X sources => loadSourcesAux_obj X sources [],
   fun X sources h => loadSourcesAux_of_nothing X sources h⟩

/-- Witness for C10: a list consisting of a missing file, a null
entry, a provider yielding nothing, and a nested list of a missing
file, loads to the empty object. -/
theorem c10_witness :
    loadSources emptyExternals
      [.file "a.json", .nullish, .provider (.ok .undefined),
        .nested [.file "b.json"]] = .ok (.obj []) :=
  c10_loadSources_yields_object.2 emptyExternals
    [.file "a.json", .nullish, .provider (.ok .undefined),
      .nested [.file "b.json"]] (by rfl)

/-- C8 (amended): for a file source, a missing file (`ENOENT`)
contributes nothing and the load succeeds; any other read failure is
delivered through the completion channel and fails the load with that
error; a parsed read is delivered as its value.  A read that succeeds
but does not parse produces an error message naming the offending
path, but the two implementations deliver it differently: the
callback implementation (lib) throws it inside the `fs.readFile`
callback, an uncaught exception that never reaches the load's
completion channel, while the promise implementation (src) rejects
the load through the same single channel that carries success. -/
theorem c8_file_source_channels :
    ∀ (X : Externals) (hs : List (String × Handler)) (p : String),
    (X.fs p = .enoent →
      loadFileSourceLib X p = .delivered (.ok .undefined) ∧
      loadFileSourceSrc X hs p = .ok .undefined ∧
      loadSources X [.file p] = .ok (.obj [])) ∧
    (∀ e, X.fs p = .ioError e →
      loadFileSourceLib X p = .delivered (.error e) ∧
      loadFileSourceSrc X hs p = .error e) ∧
    (∀ t e, X.fs p = .content t → X.parseJson t = .error e →
      loadFileSourceLib X p = .uncaughtThrow
        ("Failed to load config at path \"" ++ p ++
          "\". Unable to parse JSON. Error: " ++ e) ∧
      (∀ r : Except String JsValue, loadFileSourceLib X p ≠ .delivered r) ∧
      loadFileSourceSrc X hs p = .error
        ("Failed to load config at path \"" ++ p ++
          "\". Unable to parse JSON. Error: " ++ e)) ∧
    (∀ t v, X.fs p = .content t → X.parseJson t = .ok v →
      loadFileSourceLib X p = .delivered (.ok v)) := by
  intro X hs p
  refine ⟨fun h => ⟨?_, ?_, ?_⟩, fun e h => ⟨?_, ?_⟩,
    fun t e h1 h2 => ?_, fun t v h1 h2 => ?_⟩
  · simp [loadFileSourceLib, h]
  · simp [loadFileSourceSrc, h]
  · simp [loadSources, loadSourcesAux, loadOne, loadFileSource, h, truthy]
  · simp [loadFileSourceLib, h]
  · simp [loadFileSourceSrc, h]
  · have hval : loadFileSourceLib X p = .uncaughtThrow
        ("Failed to load config at path \"" ++ p ++
          "\". Unable to parse JSON. Error: " ++ e) := by
      simp [loadFileSourceLib, h1, parseJSON, h2, String.append_assoc]
    refine ⟨hval, fun r hr => ?_, ?_⟩
    · rw [hval] at hr
      exact CallbackOutcome.noConfusion hr
    · simp [loadFileSourceSrc, parseJSON, h1, h2, String.append_assoc]
  · simp [loadFileSourceLib, h1, parseJSON, h2]

/-- File system used for the C8 instances: one missing file, one
unreadable file, one file whose contents do not parse. -/
def c8Externals : Externals :=
  ⟨fun p =>
    if p = "missing.json" then .enoent
    else if p = "locked.json" then .ioError "EACCES: permission denied"
    else .content "not json",
   fun _ => .error "Unexpected token"⟩

/-- Counterexample to C8 as stated: in lib/async-config.js a parse
failure is thrown at line 181 inside the `fs.readFile` callback before
`callback` is invoked, so the outcome is an uncaught exception and NOT
the channel-delivered error the claim asserts -- the load's completion
channel never carries it. -/
theorem c8_counterexample :
    loadFileSourceLib c8Externals "bad.json" =
      .uncaughtThrow ("Failed to load config at path \"bad.json\". " ++
        "Unable to parse JSON. Error: Unexpected token") ∧
    loadFileSourceLib c8Externals "bad.json" ≠
      .delivered (.error ("Failed to load config at path \"bad.json\". " ++
        "Unable to parse JSON. Error: Unexpected token")) := by
  constructor
  · exact (congrArg CallbackOutcome.uncaughtThrow (by decide)).symm.trans rfl
  · intro hh
    have h1 : loadFileSourceLib c8Externals "bad.json" =
        .uncaughtThrow ("Failed to load config at path \"bad.json\". " ++
          "Unable to parse JSON. Error: Unexpected token") :=
      (congrArg CallbackOutcome.uncaughtThrow (by decide)).symm.trans rfl
    rw [h1] at hh
    exact CallbackOutcome.noConfusion hh

/-- Witness for C8 (amended) at concrete inputs. -/
theorem c8_channel_witness :
    loadFileSourceLib c8Externals "missing.json" =
      .delivered (.ok .undefined) ∧
    loadSources c8Externals [.file "missing.json"] = .ok (.obj []) ∧
    loadFileSourceLib c8Externals "locked.json" =
      .delivered (.error "EACCES: permission denied") ∧
    loadFileSourceSrc c8Externals [] "locked.json" =
      .error "EACCES: permission denied" ∧
    loadFileSourceSrc c8Externals [] "bad.json" =
      .error ("Failed to load config at path \"bad.json\". " ++
        "Unable to parse JSON. Error: Unexpected token") := by
  obtain ⟨h1, _, h2⟩ :=
    (c8_file_source_channels c8Externals [] "missing.json").1 rfl
  obtain ⟨h3, h4⟩ := (c8_file_source_channels c8Externals [] "locked.json").2.1
    "EACCES: permission denied" rfl
  obtain ⟨_, _, h5⟩ := (c8_file_source_channels c8Externals [] "bad.json").2.2.1
    "not json" "Unexpected token" rfl rfl
  exact ⟨h1, h2, h3, h4, h5.trans (congrArg Except.error (by decide))⟩

/-- Truthy values always support a property read without throwing:
only `null` and `undefined` raise, and both are falsy. -/
theorem indexJs_ok_of_truthy (cur : JsValue) (p : String)
    (h : truthy cur = true) : ∃ v, indexJs cur p = .ok v := by
  cases cur with
  | null => simp [truthy] at h
  | undefined => simp [truthy] at h
  | bool b => exact ⟨.undefined, rfl⟩
  | num n => exact ⟨.undefined, rfl⟩
  | obj fields => exact ⟨_, rfl⟩
  | arr elems =>
    by_cases hl : p = "length"
    · exact ⟨.num elems.length, by simp [indexJs, hl]⟩
    · cases hn : p.toNat? with
      | none => exact ⟨.undefined, by simp [indexJs, hl, hn]⟩
      | some i =>
        by_cases hc : toString i = p ∧ i < elems.length
        · exact ⟨elems.getD i .undefined, by simp [indexJs, hl, hn, hc]⟩
        · exact ⟨.undefined, by simp [indexJs, hl, hn, hc]⟩
  | str s =>
    by_cases hl : p = "length"
    · exact ⟨.num s.length, by simp [indexJs, hl]⟩
    · cases hn : p.toNat? with
      | none => exact ⟨.undefined, by simp [indexJs, hl, hn]⟩
      | some i =>
        by_cases hc : toString i = p ∧ i < s.length
        · exact ⟨.str ((s.drop i).take 1), by simp [indexJs, hl, hn, hc]⟩
        · exact ⟨.undefined, by simp [indexJs, hl, hn, hc]⟩

/-- The `get` walk never raises on any part list. -/
theorem getPathAux_ok (parts : List String) :
    ∀ cur : JsValue, ∃ v, getPathAux cur parts = .ok v := by
  induction parts with
  | nil => exact fun cur => ⟨cur, rfl⟩
  | cons p rest ih =>
    intro cur
    cases ht : truthy cur
    · exact ⟨cur, by simp [getPathAux, ht]⟩
    · obtain ⟨w, hw⟩ := indexJs_ok_of_truthy cur p ht
      obtain ⟨v, hv⟩ := ih w
      exact ⟨v, by simp [getPathAux, ht, hw, hv]⟩

/-- C9: the attached `get(dottedPath)` accessor walks the dot-split
keys and stops at the first falsy intermediate value, returning that
falsy value itself: on `{a: 0}`, `get("a.b")` returns `0`; on
`{a: {b: 0}}`, `get("a.b.c")` returns `0`; and the traversal never
throws on any config and any string input. -/
theorem c9_get_walk :
    getPath (.obj [("a", .num 0)]) "a.b" = .ok (.num 0) ∧
    getPath (.obj [("a", .obj [("b", .num 0)])]) "a.b.c" = .ok (.num 0) ∧
    (∀ (config : JsValue) (path : String),
      ∃ v, getPath config path = .ok v) :=
  ⟨rfl, rfl, fun config path => getPathAux_ok (splitDot path) config⟩

/-- Handler map with a single `path` handler, used for the C3
instances. -/
def hsPath : List (String × Handler) :=
  [("path", fun payload => .ok (.str ("/dir/" ++ payload)))]

/-- C3 (amended): in the callback implementation (lib/async-config.js)
`load` runs protocol resolution once over the ENTIRE merged config
after all sources are merged, and the resolver replaces every tagged
string with a registered handler's result while leaving unmatched
strings verbatim and recursing structurally into objects and arrays. -/
theorem c3_lib_resolves_merged :
    ∀ (X : Externals) (hs : List (String × Handler)) (sources : List Source)
      (merged : JsValue),
    hs ≠ [] →
    loadSources X sources = .ok merged →
    loadCoreLib X hs sources = resolveTree hs merged ∧
    (∀ (s : String) (pp : String × String) (h : Handler),
      splitTagged s = some pp → lookupField hs pp.1 = some h →
      resolveTree hs (.str s) = h pp.2) ∧
    (∀ s : String, splitTagged s = none →
      resolveTree hs (.str s) = .ok (.str s)) ∧
    (∀ (s : String) (pp : String × String),
      splitTagged s = some pp → lookupField hs pp.1 = none →
      resolveTree hs (.str s) = .ok (.str s)) ∧
    (∀ fields, resolveTree hs (.obj fields) =
      Except.map JsValue.obj (resolveFields hs fields)) ∧
    (∀ elems, resolveTree hs (.arr elems) =
      Except.map JsValue.arr (resolveElems hs elems)) := by
  intro X hs sources merged hne hload
  refine ⟨?_, fun s pp h hsp hlk => ?_, fun s hsp => ?_,
    fun s pp hsp hlk => ?_, fun fields => ?_, fun elems => ?_⟩
  · cases hs with
    | nil => exact absurd rfl hne
    | cons a t => simp [loadCoreLib, hload, handleProtocols]
  · simp [resolveTree, hsp, hlk]
  · simp [resolveTree, hsp]
  · simp [resolveTree, hsp, hlk]
  · cases hr : resolveFields hs fields <;> simp [resolveTree, hr, Except.map]
  · cases hr : resolveElems hs elems <;> simp [resolveTree, hr, Except.map]

/-- Witness for C3 (amended) at concrete inputs: a tagged string in an
inline source IS resolved by the lib pipeline. -/
theorem c3_witness :
    loadCoreLib emptyExternals hsPath
      [.inline (.obj [("a", .str "path:x")])] =
      resolveTree hsPath (.obj [("a", .str "path:x")]) ∧
    resolveTree hsPath (.str "path:x") = .ok (.str "/dir/x") := by
  have h := c3_lib_resolves_merged emptyExternals hsPath
    [.inline (.obj [("a", .str "path:x")])] (.obj [("a", .str "path:x")])
    (by simp [hsPath]) (by rfl)
  refine ⟨h.1, ?_⟩
  have hb := h.2.1 "path:x" ("path", "x")
    (fun payload => .ok (.str ("/dir/" ++ payload))) rfl rfl
  exact hb.trans (congrArg (fun t => Except.ok (JsValue.str t)) (by decide))

/-- Counterexample to C3 as stated: in the promise implementation
(src/async-config.js) protocol resolution runs only inside each file
source, so a tagged string contributed by an inline source survives
unresolved in the final config, although its protocol has a registered
handler whose result differs. -/
theorem c3_counterexample :
    loadCoreSrc emptyExternals hsPath
      [.inline (.obj [("a", .str "path:x")])] =
      .ok (.obj [("a", .str "path:x")]) ∧
    handleProtocols hsPath (.obj [("a", .str "path:x")]) =
      .ok (.obj [("a", .str "/dir/x")]) ∧
    JsValue.str "path:x" ≠ JsValue.str "/dir/x" := by
  refine ⟨rfl, rfl, fun hh => ?_⟩
  injection hh with h2
  exact absurd h2 (by decide)

/-- C4 (the code, at the failing input): `load` computes the shallow
copy `extend({}, options)` but discards it, then assigns the merged
protocol map and the normalized excludes onto the CALLER's options
object, so after the call the caller's `options.protocols` and
`options.excludes` are replaced (here: from absent to present). -/
theorem c4_options_mutated :
    ∀ dm : List (String × Handler),
    ∃ o : LoadOptions, optionsPhase dm {} = .ok o ∧
      o.protocols = some dm ∧
      o.protocols ≠ LoadOptions.protocols {} ∧
      o.excludes = some (.mapForm []) ∧
      o.excludes ≠ LoadOptions.excludes {} := by
  intro dm
  refine ⟨{ protocols := some dm, excludes := some (.mapForm []) }, rfl, rfl,
    fun hh => Option.noConfusion hh, rfl, fun hh => Option.noConfusion hh⟩

/-- C5 (the code, at the failing input): for an extensionless path the
computation `path.slice(0, 0 - ext.length)` slices to the empty
string, so the built-in file sources drop the path entirely (for path
`config` they are `.json`, `-development.json`, `-local.json` instead
of `config.json`, ...); for a path with an extension the three
documented names are built correctly. -/
theorem c5_extensionless_base_dropped :
    ∀ dm : List (String × Handler),
    loadSourceList dm "config" "" none {} none none =
      .ok [.file ".json", .file "-development.json", .file "-local.json",
        .nullish, .nullish] ∧
    loadSourceList dm "app.json" ".json" none {} none none =
      .ok [.file "app.json", .file "app-development.json",
        .file "app-local.json", .nullish, .nullish] := by
  intro dm
  exact ⟨rfl, rfl⟩

/-- C6 (the code, at the failing input): an array-form `excludes`
option is walked with `excludes[exclude] = true` while the local
`excludes` is still `null`, so the first listed name raises a
`TypeError` and the load fails instead of omitting the corresponding
built-in source; the map form works as the claim describes. -/
theorem c6_excludes_array_raises :
    ∀ (dm : List (String × Handler)) (path ext : String)
      (nodeEnv : Option String) (envCfg cmdCfg : Option JsValue),
    loadSourceList dm path ext nodeEnv
      { excludes := some (.arrayForm ["env"]) } envCfg cmdCfg =
      .error "TypeError: Cannot set properties of null" ∧
    optionsPhase dm { excludes := some (.arrayForm ["env"]) } =
      .error "TypeError: Cannot set properties of null" ∧
    (∀ envC cmdC : JsValue,
      loadSourceList dm "app.json" ".json" none
        { excludes := some (.mapForm [("env", true)]) }
        (some envC) (some cmdC) =
        .ok [.file "app.json", .file "app-development.json",
          .file "app-local.json", .inline cmdC]) := by
  intro dm path ext nodeEnv envCfg cmdCfg
  exact ⟨rfl, rfl, fun envC cmdC => rfl⟩

/-- With both `env` and `command-line` excluded the built source list
does not depend on the environment-variable and command-line override
snapshots at all. -/
theorem buildSourcesCore_snapshot_independent (path ext environment : String)
    (dfs ovs : List Source) (hook : Option (List Source → Option (List Source)))
    (ex : List (String × Bool))
    (h1 : lookupField ex "env" = some true)
    (h2 : lookupField ex "command-line" = some true)
    (e1 c1 e2 c2 : Option JsValue) :
    buildSourcesCore path ext environment dfs ovs hook ex e1 c1 =
    buildSourcesCore path ext environment dfs ovs hook ex e2 c2 := by
  simp [buildSourcesCore, h1, h2]

/-- C7: the `import` protocol handler invokes the child load on the
payload resolved against the importing file's directory, with child
options that keep the parent's `environment` and `protocols`, drop
`sources`, `defaults`, `overrides` and `finalize`, force the `env` and
`command-line` excludes to `true`, and disable helpers -- so the
imported result carries no `get` accessor and the built child source
list never includes the environment-variable or command-line override
snapshots. -/
theorem c7_import_child_options :
    ∀ (opts : LoadOptions) (dir value : String)
      (resolve : String → String → String) (cfg : JsValue),
    (importCall resolve dir opts value).1 = resolve dir value ∧
    (importCall resolve dir opts value).2 = importOptionsOf opts ∧
    (importOptionsOf opts).environment = opts.environment ∧
    (importOptionsOf opts).protocols = opts.protocols ∧
    (importOptionsOf opts).sources = none ∧
    (importOptionsOf opts).defaults = none ∧
    (importOptionsOf opts).overrides = none ∧
    (importOptionsOf opts).finalize = none ∧
    (importOptionsOf opts).helpersEnabled = some false ∧
    lookupField (excludesMapOf (importOptionsOf opts).excludes) "env" =
      some true ∧
    lookupField (excludesMapOf (importOptionsOf opts).excludes)
      "command-line" = some true ∧
    (addHelpers cfg (importOptionsOf opts).helpersEnabled).1 = none ∧
    (∀ (path ext : String) (nodeEnv : Option String)
       (e1 c1 e2 c2 : Option JsValue),
      buildSources path ext nodeEnv (importOptionsOf opts) e1 c1 =
      buildSources path ext nodeEnv (importOptionsOf opts) e2 c2) := by
  intro opts dir value resolve cfg
  refine ⟨rfl, rfl, rfl, rfl, rfl, rfl, rfl, rfl, rfl, ?_, ?_, rfl, ?_⟩
  · exact (lookupField_setField_ne _ "command-line" "env" true
      (by decide)).trans (lookupField_setField_self _ "env" true)
  · exact lookupField_setField_self _ "command-line" true
  · intro path ext nodeEnv e1 c1 e2 c2
    exact congrArg Except.ok (buildSourcesCore_snapshot_independent path ext
      (getEnvironment opts.environment nodeEnv) [] [] none _
      ((lookupField_setField_ne _ "command-line" "env" true
        (by decide)).trans (lookupField_setField_self _ "env" true))
      (lookupField_setField_self _ "command-line" true) e1 c1 e2 c2)

end AsyncConfig
